import Mathlib

/-!
Shallow embedding of `src/stabbb/stab_bb.py` (the Stabilized Barzilai-Borwein
minimizer `stab_BB`) and proofs about it.

Modelling conventions:
* Vectors (numpy 1-D arrays) are `List ℚ`; elementwise operations are
  `List.zipWith`.  Scalars are `ℚ`.
* `np.linalg.norm` (Euclidean) and `np.linalg.norm (·, np.inf)` are library
  functions external to the repository; the embedding takes them as opaque
  parameters `normE` and `normInf` (the spec lists VectorOps as supplied by a
  numeric-array library).  Concrete executable stand-ins are provided for
  witnesses.
* The caller-supplied `costFn` and `gradFn` are opaque function parameters.
* The `while` loop of `backtracking` has no bound in the source; it is
  embedded with explicit fuel, `none` meaning the loop did not finish within
  the fuel.
* The `for k in range(maxIt)` loop runs `maxIt` indices; a `KeyboardInterrupt`
  (caught by the source and turned into a normal result) is modelled by the
  `steps` parameter: the loop processes `min steps maxIt` indices.  A normal
  or max-iterations exit is `steps ≥ maxIt`.
* The `raise Exception` in `calcAlpha` (invalid `bb`) is not caught by the
  source's `try` (which catches only `KeyboardInterrupt`), so it aborts the
  run; it is embedded as `Except.error` propagated to the caller.
* Every call of `gradFn` (resp. `costFn`) is logged, in evaluation order, in
  `gradLog` (resp. `costLog`); the logs are instrumentation used to state the
  evaluation-count claims.
-/

/-- A numpy 1-D array of reals, embedded as a list of rationals. -/
abbrev Vec : Type := List ℚ

/-- Elementwise subtraction `u - v` (numpy broadcasting on equal shapes). -/
def vsub (u v : Vec) : Vec := List.zipWith (fun a b => a - b) u v

/-- Elementwise addition `u + v`. -/
def vadd (u v : Vec) : Vec := List.zipWith (fun a b => a + b) u v

/-- Scalar multiplication `a * v`. -/
def smul (a : ℚ) (v : Vec) : Vec := v.map (fun b => a * b)

/-- Dot product `u.transpose() @ v` of two 1-D arrays. -/
def dot (u v : Vec) : ℚ := (List.zipWith (fun a b => a * b) u v).sum

/-- Concrete stand-in for `np.linalg.norm(x, np.inf)` on rational vectors:
the maximum absolute value of the entries (exact for the infinity norm). -/
def linfQ (v : Vec) : ℚ := (v.map (fun a => |a|)).foldr max 0

/-- Concrete stand-in used in witnesses for the Euclidean norm on
one-dimensional vectors, where `np.linalg.norm [a] = |a|` exactly. -/
def absHead (v : Vec) : ℚ := |v.headD 0|

/-- `np.argmin` on a list: index of the first minimal element
(`np.argmin` returns the first occurrence); helper carrying the best value,
best index and current index. -/
def argminAux : List ℚ → ℚ → ℕ → ℕ → ℕ
  | [], _, best, _ => best
  | a :: rest, bv, best, i =>
      if a < bv then argminAux rest a i (i + 1)
      else argminAux rest bv best (i + 1)

/-- `np.argmin` on a list (0 on the empty list, which numpy rejects;
the run always applies it to a nonempty history). -/
def argminQ : List ℚ → ℕ
  | [] => 0
  | a :: rest => argminAux rest a 0 1

/-- The keyword configuration of `stab_BB`: `bb`, `deltaUpdateStrategy`,
`deltaInput`, `c`, `maxIt`, `tol` (`verbose` only prints and is omitted). -/
structure Cfg where
  bb : ℤ
  deltaUpdateStrategy : String
  deltaInput : ℚ
  c : ℚ
  maxIt : ℕ
  tol : ℚ
deriving Repr, DecidableEq

/-- The mutable internals of `StabBBInt` together with the local variables of
`mainAlg` (`delta`, `gkant`, `gk`) and the two evaluation logs. -/
structure BBState where
  /-- `self.x`: history of evaluated points. -/
  x : List Vec
  /-- `self.alpha`: history of accepted step sizes. -/
  alpha : List ℚ
  /-- `self.normGrad`: history of gradient norms. -/
  normGrad : List ℚ
  /-- `gkant`: the previous gradient `g_{k-1}`. -/
  gkant : Vec
  /-- `gk`: the current gradient `g_k`. -/
  gk : Vec
  /-- `delta`: the current trust radius. -/
  delta : ℚ
  /-- Points at which `gradFn` has been evaluated, in order. -/
  gradLog : List Vec
  /-- Points at which `costFn` has been evaluated, in order. -/
  costLog : List Vec
deriving Repr, DecidableEq

/-- The `while costFn(x1) > costFn(x0)` loop of `StabBBInt.backtracking`,
with fuel; returns the accepted point and the points at which `costFn` was
evaluated (each check evaluates `costFn x1` then `costFn x0`). -/
def backtrackLoop (costFn : Vec → ℚ) (x0 : Vec) : Vec → ℕ → Option (Vec × List Vec)
  | _, 0 => none
  | s0, fuel + 1 =>
      let x1 := vadd x0 s0
      if costFn x1 > costFn x0 then
        match backtrackLoop costFn x0 (smul (1 / 4) s0) fuel with
        | none => none
        | some (r, log) => some (r, x1 :: x0 :: log)
      else some (x1, [x1, x0])

/-- `StabBBInt.backtracking(x0, g0)`: `alpha0 = 1 / ‖x0‖∞`, `s0 = -alpha0*g0`,
then the halving loop.  (In ℚ, `1 / 0 = 0`; the zero-vector degeneracy,
an IEEE `inf` in the source, is outside every theorem's hypotheses.) -/
def backtracking (normInf : Vec → ℚ) (costFn : Vec → ℚ) (x0 g0 : Vec)
    (fuel : ℕ) : Option (Vec × List Vec) :=
  backtrackLoop costFn x0 (smul (-(1 / normInf x0)) g0) fuel

/-- `StabBBInt.calcAlpha`: BB1 is `(s·y)/(y·y)`, BB2 is `(s·s)/(s·y)`, any
other `bb` raises `Exception("parameter bb is not within range")`. -/
def calcAlpha (bb : ℤ) (skant ykant : Vec) : Except String ℚ :=
  if bb = 1 then .ok (dot skant ykant / dot ykant ykant)
  else if bb = 2 then .ok (dot skant skant / dot skant ykant)
  else .error "parameter bb is not within range"

/-- `StabBBInt.correctAlpha`: replace a nonpositive BB candidate by
`‖skant‖ / ‖ykant‖`, otherwise pass it through. -/
def correctAlpha (normE : Vec → ℚ) (alpha_bb : ℚ) (skant ykant : Vec) : ℚ :=
  if alpha_bb ≤ 0 then normE skant / normE ykant else alpha_bb

/-- `StabBBInt.deltaUpdateFn`: at `k == 4` return
`c * min(‖x[4]-x[3]‖, ‖x[3]-x[2]‖, ‖x[2]-x[1]‖)`, otherwise the last delta. -/
def deltaUpdateFn (normE : Vec → ℚ) (c : ℚ) (xs : List Vec)
    (lastDelta : ℚ) (k : ℕ) : ℚ :=
  if k = 4 then
    c * min (min (normE (vsub (xs.getD 4 []) (xs.getD 3 [])))
                 (normE (vsub (xs.getD 3 []) (xs.getD 2 []))))
            (normE (vsub (xs.getD 2 []) (xs.getD 1 [])))
  else lastDelta

/-- The loopGuard of the loop body: `self.normGrad[-1] > tol`. -/
def loopGuard (tol : ℚ) (st : BBState) : Prop :=
  st.normGrad.getD (st.normGrad.length - 1) 0 > tol

instance (tol : ℚ) (st : BBState) : Decidable (loopGuard tol st) := by
  unfold loopGuard; infer_instance

/-- One execution of the body of the `for k in range(int(maxIt))` loop of
`StabBBInt.mainAlg` (the part under `if self.normGrad[-1] > tol`). -/
def stepBB (normE : Vec → ℚ) (gradFn : Vec → Vec) (cfg : Cfg)
    (st : BBState) (k : ℕ) : Except String BBState :=
  let skant := vsub (st.x.getD (st.x.length - 1) []) (st.x.getD (st.x.length - 2) [])
  let ykant := vsub st.gk st.gkant
  match calcAlpha cfg.bb skant ykant with
  | .error e => .error e
  | .ok alpha_bb =>
      let alpha_bb_corrected := correctAlpha normE alpha_bb skant ykant
      let alphak := min alpha_bb_corrected (st.delta / normE st.gk)
      let xk := vsub (st.x.getD (st.x.length - 1) []) (smul alphak st.gk)
      let gkNew := gradFn xk
      let deltaNew :=
        if cfg.deltaUpdateStrategy = "adaptative" then
          deltaUpdateFn normE cfg.c st.x st.delta k
        else st.delta
      .ok { x := st.x ++ [xk]
            alpha := st.alpha ++ [alphak]
            normGrad := st.normGrad ++ [normE gkNew]
            gkant := st.gk
            gk := gkNew
            delta := deltaNew
            gradLog := st.gradLog ++ [xk]
            costLog := st.costLog }

/-- The `for` loop of `mainAlg`, starting at index `k` with `n` indices left.
An uncaught exception carries the state at the moment it was raised (for the
evaluation logs); an index whose loopGuard fails leaves the state unchanged. -/
def loopBB (normE : Vec → ℚ) (gradFn : Vec → Vec) (cfg : Cfg) :
    BBState → ℕ → ℕ → Except (String × BBState) BBState
  | st, _, 0 => .ok st
  | st, k, n + 1 =>
      if loopGuard cfg.tol st then
        match stepBB normE gradFn cfg st k with
        | .error e => .error (e, st)
        | .ok st' => loopBB normE gradFn cfg st' (k + 1) n
      else loopBB normE gradFn cfg st (k + 1) n

/-- `StabBBInt.__init__` followed by the initialization part of `mainAlg`
(everything before the `for` loop): `self.x = [x0, backtracking(x0, gradFn(x0))]`,
`self.alpha = []`, `delta = deltaInput`, `gkant = gradFn(x0)`,
`gk = gradFn(self.x[1])`, `self.normGrad = [norm(gk)]`.
`none` means the backtracking `while` loop did not finish within the fuel. -/
def initBB (normE normInf : Vec → ℚ) (costFn : Vec → ℚ) (gradFn : Vec → Vec)
    (x0 : Vec) (cfg : Cfg) (btFuel : ℕ) : Option BBState :=
  match backtracking normInf costFn x0 (gradFn x0) btFuel with
  | none => none
  | some (x1, clog) =>
      some { x := [x0, x1]
             alpha := []
             normGrad := [normE (gradFn x1)]
             gkant := gradFn x0
             gk := gradFn x1
             delta := cfg.deltaInput
             gradLog := [x0, x0, x1]
             costLog := clog }

/-- Outcome of a run of `stab_BB`: a normal return (`bestX` and the three
histories, plus the evaluation logs), an uncaught exception (with the logs at
the moment it was raised), or a backtracking loop that did not finish. -/
inductive BBOutcome where
  | ok (bestX : Vec) (xHistory : List Vec) (alphaHistory : List ℚ)
      (normGradHistory : List ℚ) (gradLog : List Vec) (costLog : List Vec)
  | err (msg : String) (gradLog : List Vec) (costLog : List Vec)
  | hang
deriving Repr, DecidableEq

/-- The function `stab_BB`: build `StabBBInt` (running `backtracking`), run
`mainAlg` for `min steps maxIt` loop indices (`steps ≥ maxIt` is a normal or
max-iterations exit, `steps < maxIt` a `KeyboardInterrupt` after `steps`
indices), then `bestX = stabint.x[np.argmin(stabint.normGrad) + 1]`. -/
def stab_BB (normE normInf : Vec → ℚ) (costFn : Vec → ℚ) (gradFn : Vec → Vec)
    (x0 : Vec) (cfg : Cfg) (btFuel steps : ℕ) : BBOutcome :=
  match initBB normE normInf costFn gradFn x0 cfg btFuel with
  | none => .hang
  | some st0 =>
      match loopBB normE gradFn cfg st0 0 (min steps cfg.maxIt) with
      | .error (e, st) => .err e st.gradLog st.costLog
      | .ok st =>
          .ok (st.x.getD (argminQ st.normGrad + 1) [])
            st.x st.alpha st.normGrad st.gradLog st.costLog

example : argminQ [3, 1, 2] = 1 := by decide
example : argminQ [3, 1, 1] = 1 := by decide
example : linfQ [2, -5] = 5 := by decide


/-! ### List helper lemmas -/

theorem getD_append_lt {α : Type} (l l' : List α) (n : ℕ) (d : α)
    (h : n < l.length) : (l ++ l').getD n d = l.getD n d := by
  induction l generalizing n with
  | nil => simp at h
  | cons b t ih =>
      cases n with
      | zero => rfl
      | succ m =>
          simp only [List.cons_append, List.getD_cons_succ]
          exact ih m (by simpa using h)

theorem getD_concat_self {α : Type} (l : List α) (a d : α) :
    (l ++ [a]).getD l.length d = a := by
  induction l with
  | nil => rfl
  | cons b t ih =>
      simp only [List.cons_append, List.length_cons, List.getD_cons_succ]
      exact ih

theorem getD_mem {α : Type} (l : List α) (n : ℕ) (d : α) (h : n < l.length) :
    l.getD n d ∈ l := by
  induction l generalizing n with
  | nil => simp at h
  | cons b t ih =>
      cases n with
      | zero => simp [List.getD_cons_zero]
      | succ m =>
          simp only [List.getD_cons_succ]
          exact List.mem_cons_of_mem _ (ih m (by simpa using h))

/-! ### `argminQ` returns an index of a minimal element -/

theorem argminAux_spec (rest : List ℚ) : ∀ (bv : ℚ) (best i : ℕ),
    (argminAux rest bv best i = best ∧ ∀ a ∈ rest, bv ≤ a) ∨
    (∃ j, j < rest.length ∧ argminAux rest bv best i = i + j ∧
      rest.getD j 0 ≤ bv ∧ ∀ a ∈ rest, rest.getD j 0 ≤ a) := by
  induction rest with
  | nil => intro bv best i; left; exact ⟨rfl, by simp⟩
  | cons a t ih =>
      intro bv best i
      by_cases hab : a < bv
      · right
        rcases ih a i (i + 1) with ⟨heq, hmin⟩ | ⟨j, hj, heq, hle, hmin⟩
        · refine ⟨0, by simp, ?_, ?_, ?_⟩
          · simpa [argminAux, hab] using heq
          · simpa using le_of_lt hab
          · intro b hb
            rcases List.mem_cons.1 hb with h | h
            · simp [h]
            · simpa using hmin b h
        · refine ⟨j + 1, by simpa using hj, ?_, ?_, ?_⟩
          · simp only [argminAux, if_pos hab]
            rw [heq]; omega
          · simp only [List.getD_cons_succ]
            exact le_of_lt (lt_of_le_of_lt hle hab)
          · intro b hb
            rcases List.mem_cons.1 hb with h | h
            · rw [h]; simpa using hle
            · simpa [List.getD_cons_succ] using hmin b h
      · push_neg at hab
        rcases ih bv best (i + 1) with ⟨heq, hmin⟩ | ⟨j, hj, heq, hle, hmin⟩
        · left
          refine ⟨by simpa [argminAux, not_lt.2 hab] using heq, ?_⟩
          intro b hb
          rcases List.mem_cons.1 hb with h | h
          · simpa [h] using hab
          · exact hmin b h
        · right
          refine ⟨j + 1, by simpa using hj, ?_, ?_, ?_⟩
          · simp only [argminAux, if_neg (not_lt.2 hab)]
            rw [heq]; omega
          · simpa [List.getD_cons_succ] using hle
          · intro b hb
            rcases List.mem_cons.1 hb with h | h
            · simpa [h, List.getD_cons_succ] using le_trans hle hab
            · simpa [List.getD_cons_succ] using hmin b h

theorem argminQ_lt_length (l : List ℚ) (h : l ≠ []) : argminQ l < l.length := by
  cases l with
  | nil => exact absurd rfl h
  | cons a t =>
      rcases argminAux_spec t a 0 1 with ⟨heq, _⟩ | ⟨j, hj, heq, _, _⟩
      · simp [argminQ, heq]
      · simp only [argminQ, heq, List.length_cons]
        omega

theorem argminQ_min (l : List ℚ) (i : ℕ) (hi : i < l.length) :
    l.getD (argminQ l) 0 ≤ l.getD i 0 := by
  cases l with
  | nil => simp at hi
  | cons a t =>
      rcases argminAux_spec t a 0 1 with ⟨heq, hmin⟩ | ⟨j, hj, heq, hle, hmin⟩
      · have h1 : argminQ (a :: t) = 0 := by simp [argminQ, heq]
        rw [h1, List.getD_cons_zero]
        cases i with
        | zero => simp
        | succ m =>
            simp only [List.getD_cons_succ]
            exact hmin _ (getD_mem t m 0 (by simpa using hi))
      · have h1 : argminQ (a :: t) = j + 1 := by
          simp only [argminQ, heq]; omega
        rw [h1]
        simp only [List.getD_cons_succ]
        cases i with
        | zero => simpa using hle
        | succ m =>
            simp only [List.getD_cons_succ]
            exact hmin _ (getD_mem t m 0 (by simpa using hi))

/-! ### Characterization of one loop-body execution -/

theorem stepBB_ok_fields (normE : Vec → ℚ) (gradFn : Vec → Vec) (cfg : Cfg)
    (st : BBState) (k : ℕ) (st' : BBState)
    (h : stepBB normE gradFn cfg st k = .ok st') :
    ∃ xk alphak,
      st'.x = st.x ++ [xk] ∧
      st'.alpha = st.alpha ++ [alphak] ∧
      st'.normGrad = st.normGrad ++ [normE (gradFn xk)] ∧
      st'.gkant = st.gk ∧
      st'.gk = gradFn xk ∧
      st'.delta = (if cfg.deltaUpdateStrategy = "adaptative"
          then deltaUpdateFn normE cfg.c st.x st.delta k else st.delta) ∧
      st'.gradLog = st.gradLog ++ [xk] ∧
      st'.costLog = st.costLog := by
  simp only [stepBB] at h
  split at h
  · exact absurd h (by simp)
  · injection h with h'
    subst h'
    exact ⟨_, _, rfl, rfl, rfl, rfl, rfl, rfl, rfl, rfl⟩

theorem stepBB_error_of_bb (normE : Vec → ℚ) (gradFn : Vec → Vec) (cfg : Cfg)
    (st : BBState) (k : ℕ) (hbb1 : cfg.bb ≠ 1) (hbb2 : cfg.bb ≠ 2) :
    stepBB normE gradFn cfg st k = .error "parameter bb is not within range" := by
  simp only [stepBB, calcAlpha, if_neg hbb1, if_neg hbb2]

theorem stepBB_err_iff (normE : Vec → ℚ) (gradFn : Vec → Vec) (cfg : Cfg)
    (st : BBState) (k : ℕ) (e : String)
    (h : stepBB normE gradFn cfg st k = .error e) :
    cfg.bb ≠ 1 ∧ cfg.bb ≠ 2 ∧ e = "parameter bb is not within range" := by
  by_cases h1 : cfg.bb = 1
  · simp only [stepBB, calcAlpha, if_pos h1] at h
    exact absurd h (by simp)
  · by_cases h2 : cfg.bb = 2
    · simp only [stepBB, calcAlpha, if_neg h1, if_pos h2] at h
      exact absurd h (by simp)
    · refine ⟨h1, h2, ?_⟩
      rw [stepBB_error_of_bb normE gradFn cfg st k h1 h2] at h
      injection h with h'
      exact h'.symm

/-! ### The loop preserves invariants -/

theorem loopBB_ok_preserve (normE : Vec → ℚ) (gradFn : Vec → Vec) (cfg : Cfg)
    (P : BBState → Prop)
    (hstep : ∀ st k st', P st → stepBB normE gradFn cfg st k = .ok st' → P st') :
    ∀ (n k : ℕ) (st st' : BBState), P st →
      loopBB normE gradFn cfg st k n = .ok st' → P st' := by
  intro n
  induction n with
  | zero =>
      intro k st st' hP h
      simp only [loopBB] at h
      injection h with h'
      exact h' ▸ hP
  | succ n ih =>
      intro k st st' hP h
      simp only [loopBB] at h
      split at h
      · split at h
        · exact absurd h (by simp)
        · next st1 heq => exact ih _ _ _ (hstep _ _ _ hP heq) h
      · exact ih _ _ _ hP h

theorem loopBB_error_elim (normE : Vec → ℚ) (gradFn : Vec → Vec) (cfg : Cfg)
    (P : BBState → Prop)
    (hstep : ∀ st k st', P st → stepBB normE gradFn cfg st k = .ok st' → P st') :
    ∀ (n k : ℕ) (st st'' : BBState) (e : String), P st →
      loopBB normE gradFn cfg st k n = .error (e, st'') →
      P st'' ∧ cfg.bb ≠ 1 ∧ cfg.bb ≠ 2 ∧ e = "parameter bb is not within range" := by
  intro n
  induction n with
  | zero =>
      intro k st st'' e hP h
      exact absurd h (by simp [loopBB])
  | succ n ih =>
      intro k st st'' e hP h
      simp only [loopBB] at h
      split at h
      · split at h
        · next e' heq =>
            injection h with h'
            injection h' with h1 h2
            rw [← h1, ← h2]
            exact ⟨hP, stepBB_err_iff normE gradFn cfg st k e' heq⟩
        · next st1 heq => exact ih _ _ _ _ (hstep _ _ _ hP heq) h
      · exact ih _ _ _ _ hP h

theorem loopBB_first_err (normE : Vec → ℚ) (gradFn : Vec → Vec) (cfg : Cfg)
    (st : BBState) (k n : ℕ) (e : String)
    (hguard : loopGuard cfg.tol st)
    (hstep : stepBB normE gradFn cfg st k = .error e) :
    loopBB normE gradFn cfg st k (n + 1) = .error (e, st) := by
  simp only [loopBB, if_pos hguard, hstep]

/-! ### The run invariant: history lengths, head point, gradient log, last norm -/

def BBInv (normE : Vec → ℚ) (x0 : Vec) (st : BBState) : Prop :=
  st.normGrad.length + 1 = st.x.length ∧
  st.alpha.length + 2 = st.x.length ∧
  st.x.getD 0 [] = x0 ∧
  st.gradLog = x0 :: st.x ∧
  st.normGrad.getD (st.normGrad.length - 1) 0 = normE st.gk

theorem initBB_inv (normE normInf : Vec → ℚ) (costFn : Vec → ℚ)
    (gradFn : Vec → Vec) (x0 : Vec) (cfg : Cfg) (btFuel : ℕ) (st0 : BBState)
    (h : initBB normE normInf costFn gradFn x0 cfg btFuel = some st0) :
    BBInv normE x0 st0 := by
  unfold initBB at h
  split at h
  · exact absurd h (by simp)
  · injection h with h'
    subst h'
    exact ⟨rfl, rfl, rfl, rfl, rfl⟩

theorem stepBB_inv (normE : Vec → ℚ) (gradFn : Vec → Vec) (cfg : Cfg)
    (x0 : Vec) (st : BBState) (k : ℕ) (st' : BBState)
    (hP : BBInv normE x0 st) (h : stepBB normE gradFn cfg st k = .ok st') :
    BBInv normE x0 st' := by
  obtain ⟨xk, alphak, hx, ha, hn, _, hgk, _, hgl, _⟩ :=
    stepBB_ok_fields normE gradFn cfg st k st' h
  obtain ⟨h1, h2, h3, h4, h5⟩ := hP
  refine ⟨?_, ?_, ?_, ?_, ?_⟩
  · rw [hx, hn]; simp only [List.length_append, List.length_cons, List.length_nil]; omega
  · rw [hx, ha]; simp only [List.length_append, List.length_cons, List.length_nil]; omega
  · rw [hx, getD_append_lt _ _ _ _ (by omega)]; exact h3
  · rw [hgl, hx, h4]; rfl
  · rw [hn, hgk]
    have hlen : (st.normGrad ++ [normE (gradFn xk)]).length - 1 = st.normGrad.length := by
      simp only [List.length_append, List.length_cons, List.length_nil]
      omega
    rw [hlen, getD_concat_self]

/-! ### Destructor for a normal run -/

theorem stab_BB_ok_elim (normE normInf : Vec → ℚ) (costFn : Vec → ℚ)
    (gradFn : Vec → Vec) (x0 : Vec) (cfg : Cfg) (btFuel steps : ℕ)
    (b : Vec) (xs : List Vec) (as ns : List ℚ) (gl cl : List Vec)
    (h : stab_BB normE normInf costFn gradFn x0 cfg btFuel steps
        = .ok b xs as ns gl cl) :
    ∃ st0 st, initBB normE normInf costFn gradFn x0 cfg btFuel = some st0 ∧
      loopBB normE gradFn cfg st0 0 (min steps cfg.maxIt) = .ok st ∧
      st.x = xs ∧ st.alpha = as ∧ st.normGrad = ns ∧
      st.gradLog = gl ∧ st.costLog = cl ∧
      b = xs.getD (argminQ ns + 1) [] := by
  unfold stab_BB at h
  split at h
  · exact absurd h (by simp)
  · next st0 hinit =>
      split at h
      · exact absurd h (by simp)
      · next st hloop =>
          injection h with hb h2 h3 h4 h5 h6
          exact ⟨st0, st, hinit, hloop, h2, h3, h4, h5, h6, by rw [← hb, h2, h4]⟩

/-! ### Claim theorems -/

/-- C1: for every run of `stab_BB` that returns (normal, max-iterations, or
interrupted exit, i.e. any `steps`), the returned best point equals
`xHistory[argminQ normGradHistory + 1]`; the argmin index carries a minimal
recorded gradient norm, and the shifted index is at least 1 (the index-0
initial point is never returned) and within the history. -/
theorem stab_BB_bestPoint (normE normInf : Vec → ℚ) (costFn : Vec → ℚ)
    (gradFn : Vec → Vec) (x0 : Vec) (cfg : Cfg) (btFuel steps : ℕ)
    (b : Vec) (xs : List Vec) (as ns : List ℚ) (gl cl : List Vec)
    (h : stab_BB normE normInf costFn gradFn x0 cfg btFuel steps
        = .ok b xs as ns gl cl) :
    b = xs.getD (argminQ ns + 1) [] ∧
    1 ≤ argminQ ns + 1 ∧
    argminQ ns + 1 < xs.length ∧
    ∀ i, i < ns.length → ns.getD (argminQ ns) 0 ≤ ns.getD i 0 := by
  obtain ⟨st0, st, hinit, hloop, hx, ha, hn, _, _, hb⟩ :=
    stab_BB_ok_elim normE normInf costFn gradFn x0 cfg btFuel steps b xs as ns gl cl h
  have hinv := loopBB_ok_preserve normE gradFn cfg (BBInv normE x0)
    (fun s k s' hP hs => stepBB_inv normE gradFn cfg x0 s k s' hP hs)
    (min steps cfg.maxIt) 0 st0 st
    (initBB_inv normE normInf costFn gradFn x0 cfg btFuel st0 hinit) hloop
  obtain ⟨h1, h2, _, _, _⟩ := hinv
  rw [hx] at h1 h2
  rw [hn] at h1
  have hne : ns ≠ [] := by
    intro hcon
    rw [hcon] at h1
    simp at h1
    omega
  refine ⟨hb, Nat.succ_le_succ (Nat.zero_le _), ?_, fun i hi => argminQ_min ns i hi⟩
  have := argminQ_lt_length ns hne
  omega

/-- C2: after any exit of `stab_BB` (normal, max-iterations, or interrupted,
i.e. any `steps`) the histories satisfy
`normGradHistory.length = xHistory.length - 1` and
`alphaHistory.length = xHistory.length - 2` (stated without truncated
subtraction), and every completed loop body appends exactly one element to
each of the three histories, so the offsets hold at every iteration
boundary. -/
theorem stab_BB_history_lengths (normE normInf : Vec → ℚ) (costFn : Vec → ℚ)
    (gradFn : Vec → Vec) (x0 : Vec) (cfg : Cfg) (btFuel steps : ℕ)
    (b : Vec) (xs : List Vec) (as ns : List ℚ) (gl cl : List Vec)
    (h : stab_BB normE normInf costFn gradFn x0 cfg btFuel steps
        = .ok b xs as ns gl cl) :
    ns.length + 1 = xs.length ∧ as.length + 2 = xs.length ∧
    (∀ st k st', stepBB normE gradFn cfg st k = .ok st' →
      st'.x.length = st.x.length + 1 ∧
      st'.alpha.length = st.alpha.length + 1 ∧
      st'.normGrad.length = st.normGrad.length + 1) := by
  obtain ⟨st0, st, hinit, hloop, hx, ha, hn, _, _, _⟩ :=
    stab_BB_ok_elim normE normInf costFn gradFn x0 cfg btFuel steps b xs as ns gl cl h
  have hinv := loopBB_ok_preserve normE gradFn cfg (BBInv normE x0)
    (fun s k s' hP hs => stepBB_inv normE gradFn cfg x0 s k s' hP hs)
    (min steps cfg.maxIt) 0 st0 st
    (initBB_inv normE normInf costFn gradFn x0 cfg btFuel st0 hinit) hloop
  obtain ⟨h1, h2, _, _, _⟩ := hinv
  rw [hx, ha, hn] at *
  refine ⟨h1, h2, ?_⟩
  intro s k s' hs
  obtain ⟨xk, alphak, hx', ha', hn', _, _, _, _, _⟩ :=
    stepBB_ok_fields normE gradFn cfg s k s' hs
  rw [hx', ha', hn']
  simp

/-- C5 (amended): the gradient-evaluation log of any returning run of
`stab_BB` is exactly `x0` followed by the point history in order, and the
point history begins with `x0`; hence the gradient at the initial point is
evaluated twice (once for `backtracking`, once to seed `gkant`), not once,
and the gradient at every other requested point is evaluated once per
request. -/
theorem stab_BB_gradLog (normE normInf : Vec → ℚ) (costFn : Vec → ℚ)
    (gradFn : Vec → Vec) (x0 : Vec) (cfg : Cfg) (btFuel steps : ℕ)
    (b : Vec) (xs : List Vec) (as ns : List ℚ) (gl cl : List Vec)
    (h : stab_BB normE normInf costFn gradFn x0 cfg btFuel steps
        = .ok b xs as ns gl cl) :
    gl = x0 :: xs ∧ xs.getD 0 [] = x0 := by
  obtain ⟨st0, st, hinit, hloop, hx, _, _, hgl, _, _⟩ :=
    stab_BB_ok_elim normE normInf costFn gradFn x0 cfg btFuel steps b xs as ns gl cl h
  have hinv := loopBB_ok_preserve normE gradFn cfg (BBInv normE x0)
    (fun s k s' hP hs => stepBB_inv normE gradFn cfg x0 s k s' hP hs)
    (min steps cfg.maxIt) 0 st0 st
    (initBB_inv normE normInf costFn gradFn x0 cfg btFuel st0 hinit) hloop
  obtain ⟨_, _, h3, h4, _⟩ := hinv
  rw [hx] at h3
  rw [hgl, hx] at h4
  exact ⟨h4, h3⟩

/-- C5 (counterexample to the claim as stated): on the one-dimensional
quadratic `f(x) = x^2/2` with `x0 = [1]`, the run returns normally and its
gradient-evaluation log contains the initial point twice, not exactly
once. -/
theorem stab_BB_gradLog_cex :
    stab_BB absHead linfQ (fun v => (v.headD 0) ^ 2 / 2) (fun v => v) [1]
      { bb := 1, deltaUpdateStrategy := "adaptative", deltaInput := 10,
        c := 1/5, maxIt := 3, tol := 0 } 5 10
      = .ok [0] [[1], [0]] [] [0] [[1], [1], [0]] [[0], [1]] ∧
    List.count ([1] : Vec) [[1], [1], [0]] = 2 ∧ (2 : ℕ) ≠ 1 := by
  refine ⟨by with_unfolding_all decide, by decide, by decide⟩

/-- The halving loop only stops at a point whose cost is at most the cost of
`x0` (the source condition is a strict `>`, so equality is accepted). -/
theorem backtrackLoop_cost_le (costFn : Vec → ℚ) (x0 : Vec) :
    ∀ (fuel : ℕ) (s0 x1 : Vec) (clog : List Vec),
      backtrackLoop costFn x0 s0 fuel = some (x1, clog) →
      costFn x1 ≤ costFn x0 := by
  intro fuel
  induction fuel with
  | zero => intro s0 x1 clog h; exact absurd h (by simp [backtrackLoop])
  | succ n ih =>
      intro s0 x1 clog h
      simp only [backtrackLoop] at h
      split at h
      · split at h
        · exact absurd h (by simp)
        · next r log heq =>
            injection h with h'
            injection h' with h1 h2
            exact h1 ▸ ih _ _ _ heq
      · next hgt =>
          injection h with h'
          injection h' with h1 h2
          rw [← h1]
          exact le_of_not_lt hgt

/-- C4 (amended): whenever the `backtracking` loop of the Initializer
terminates, the returned second seed point `x1` satisfies
`cost(x1) ≤ cost(x0)`; the halving repeats only while `cost(x1) > cost(x0)`,
so a candidate of cost equal to `cost(x0)` is accepted (the strict decrease
asserted by the claim does not hold). -/
theorem backtracking_cost_le (normInf : Vec → ℚ) (costFn : Vec → ℚ)
    (x0 g0 : Vec) (fuel : ℕ) (x1 : Vec) (clog : List Vec)
    (h : backtracking normInf costFn x0 g0 fuel = some (x1, clog)) :
    costFn x1 ≤ costFn x0 := by
  unfold backtracking at h
  exact backtrackLoop_cost_le costFn x0 fuel _ x1 clog h

/-- C4 (counterexample to the claim as stated): for the constant cost
function and `x0 = [1]` (nonzero infinity norm, terminating loop with
gradient `g0 = [1]`), `backtracking` accepts a point of cost equal to
`cost(x0)`, so the strict decrease `cost(x1) < cost(x0)` fails. -/
theorem backtracking_cost_le_cex :
    linfQ [1] ≠ 0 ∧
    backtracking linfQ (fun _ => (0 : ℚ)) [1] [1] 5 = some ([0], [[0], [1]]) ∧
    ¬ ((fun _ : Vec => (0 : ℚ)) [0] < (fun _ : Vec => (0 : ℚ)) [1]) := by
  refine ⟨by decide, by with_unfolding_all decide, by simp⟩

/-- A loop whose entry guard fails leaves the state untouched: the indices
keep advancing (`for k in range(maxIt)` has no break) but no body runs, since
`normGrad[-1]` never changes once the guard is false. -/
theorem loopBB_guard_false (normE : Vec → ℚ) (gradFn : Vec → Vec) (cfg : Cfg)
    (st : BBState) (hg : ¬ loopGuard cfg.tol st) :
    ∀ (n k : ℕ), loopBB normE gradFn cfg st k n = .ok st := by
  intro n
  induction n with
  | zero => intro k; rfl
  | succ n ih =>
      intro k
      simp only [loopBB, if_neg hg]
      exact ih (k + 1)

/-- C3 (amended): with a `bb` variant outside {1, 2}, the run does not fail
before the first cost or gradient evaluation.  If the loop runs (at least
one available index and an initial gradient norm above tolerance), the
exception `"parameter bb is not within range"` is raised in the first
executed loop body, after the initializer and setup have already evaluated
the gradient at `x0` twice and at `x1` once (and the cost during
backtracking), and the run returns no result histories.  If instead the
initial gradient norm is already within tolerance, no error is raised at
all and a normal result is returned from the seeded histories. -/
theorem stab_BB_invalid_bb (normE normInf : Vec → ℚ) (costFn : Vec → ℚ)
    (gradFn : Vec → Vec) (x0 : Vec) (cfg : Cfg) (btFuel steps : ℕ)
    (st0 : BBState)
    (hbb1 : cfg.bb ≠ 1) (hbb2 : cfg.bb ≠ 2)
    (hinit : initBB normE normInf costFn gradFn x0 cfg btFuel = some st0) :
    (loopGuard cfg.tol st0 → 1 ≤ min steps cfg.maxIt →
      stab_BB normE normInf costFn gradFn x0 cfg btFuel steps
        = .err "parameter bb is not within range" st0.gradLog st0.costLog) ∧
    (¬ loopGuard cfg.tol st0 →
      stab_BB normE normInf costFn gradFn x0 cfg btFuel steps
        = .ok (st0.x.getD (argminQ st0.normGrad + 1) []) st0.x st0.alpha
            st0.normGrad st0.gradLog st0.costLog) ∧
    st0.gradLog = [x0, x0, st0.x.getD 1 []] := by
  refine ⟨?_, ?_, ?_⟩
  · intro hguard hsteps
    obtain ⟨n, hn⟩ : ∃ n, min steps cfg.maxIt = n + 1 :=
      ⟨min steps cfg.maxIt - 1, by omega⟩
    have hloop : loopBB normE gradFn cfg st0 0 (min steps cfg.maxIt)
        = .error ("parameter bb is not within range", st0) := by
      rw [hn]
      exact loopBB_first_err normE gradFn cfg st0 0 n _ hguard
        (stepBB_error_of_bb normE gradFn cfg st0 0 hbb1 hbb2)
    simp only [stab_BB, hinit, hloop]
  · intro hg
    have hloop := loopBB_guard_false normE gradFn cfg st0 hg (min steps cfg.maxIt) 0
    simp only [stab_BB, hinit, hloop]
  · unfold initBB at hinit
    split at hinit
    · exact absurd hinit (by simp)
    · injection hinit with h'
      rw [← h']
      rfl

/-- C3 (counterexample to the claim as stated): with `bb = 3` on the
quadratic `f(x) = x^2/2` from `x0 = [2]`, the run does fail with the
invalid-`bb` exception, but only after three gradient evaluations and two
cost evaluations have already been performed (the logs attached to the error
are nonempty), contradicting "before any evaluation of the caller-supplied
cost or gradient function occurs". -/
theorem stab_BB_invalid_bb_cex :
    stab_BB absHead linfQ (fun v => (v.headD 0) ^ 2 / 2) (fun v => v) [2]
      { bb := 3, deltaUpdateStrategy := "adaptative", deltaInput := 10,
        c := 1/5, maxIt := 3, tol := 0 } 5 10
      = .err "parameter bb is not within range" [[2], [2], [1]] [[1], [2]] ∧
    ([[2], [2], [1]] : List Vec) ≠ [] ∧ ([[1], [2]] : List Vec) ≠ [] := by
  refine ⟨by with_unfolding_all decide, by decide, by decide⟩

/-- Under any strategy other than the exact string `"adaptative"`, one loop
body leaves `delta` unchanged. -/
theorem stepBB_delta_not_adaptative (normE : Vec → ℚ) (gradFn : Vec → Vec)
    (cfg : Cfg) (st : BBState) (k : ℕ) (st' : BBState)
    (hs : cfg.deltaUpdateStrategy ≠ "adaptative")
    (h : stepBB normE gradFn cfg st k = .ok st') : st'.delta = st.delta := by
  obtain ⟨_, _, _, _, _, _, _, hd, _, _⟩ := stepBB_ok_fields normE gradFn cfg st k st' h
  rw [hd, if_neg hs]

/-- Under any strategy other than `"adaptative"`, the whole loop leaves
`delta` unchanged. -/
theorem loopBB_delta_not_adaptative (normE : Vec → ℚ) (gradFn : Vec → Vec)
    (cfg : Cfg) (hs : cfg.deltaUpdateStrategy ≠ "adaptative")
    (n k : ℕ) (st st' : BBState)
    (h : loopBB normE gradFn cfg st k n = .ok st') : st'.delta = st.delta := by
  exact loopBB_ok_preserve normE gradFn cfg (fun s => s.delta = st.delta)
    (fun s k' s' hP hstep =>
      (stepBB_delta_not_adaptative normE gradFn cfg s k' s' hs hstep).trans hP)
    n k st st' rfl h

/-- A loop whose indices all stay below 4 leaves `delta` unchanged (under any
strategy: `deltaUpdateFn` is the identity away from index 4). -/
theorem loopBB_delta_pre4 (normE : Vec → ℚ) (gradFn : Vec → Vec) (cfg : Cfg) :
    ∀ (n k : ℕ) (st st' : BBState), k + n ≤ 4 →
      loopBB normE gradFn cfg st k n = .ok st' → st'.delta = st.delta := by
  intro n
  induction n with
  | zero =>
      intro k st st' _ h
      simp only [loopBB] at h
      injection h with h'
      rw [← h']
  | succ n ih =>
      intro k st st' hk h
      simp only [loopBB] at h
      split at h
      · split at h
        · exact absurd h (by simp)
        · next st1 heq =>
            obtain ⟨_, _, _, _, _, _, _, hd, _, _⟩ :=
              stepBB_ok_fields normE gradFn cfg st k st1 heq
            have hk4 : k ≠ 4 := by omega
            have hδ : st1.delta = st.delta := by
              rw [hd, deltaUpdateFn, if_neg hk4]
              split <;> rfl
            rw [ih (k + 1) st1 st' (by omega) h, hδ]
      · exact ih (k + 1) st st' (by omega) h

/-- C6: `deltaUpdateFn` is the identity at every iteration index other than
4 and returns `c · min(‖x[4]−x[3]‖, ‖x[3]−x[2]‖, ‖x[2]−x[1]‖)` at index 4;
each loop body rewrites `delta` through `deltaUpdateFn` exactly when the
strategy is the string `"adaptative"` and keeps it otherwise; consequently
`delta` is unchanged over all loop indices before 4, over any run under a
non-adaptative strategy, and its initial value is `deltaInput`. -/
theorem stab_BB_delta_adaptation (normE normInf : Vec → ℚ) (costFn : Vec → ℚ)
    (gradFn : Vec → Vec) (x0 : Vec) (cfg : Cfg) (btFuel : ℕ) :
    (∀ xs d k, k ≠ 4 → deltaUpdateFn normE cfg.c xs d k = d) ∧
    (∀ xs d, deltaUpdateFn normE cfg.c xs d 4 =
      cfg.c * min (min (normE (vsub (xs.getD 4 []) (xs.getD 3 [])))
                       (normE (vsub (xs.getD 3 []) (xs.getD 2 []))))
                  (normE (vsub (xs.getD 2 []) (xs.getD 1 [])))) ∧
    (∀ st k st', stepBB normE gradFn cfg st k = .ok st' →
      st'.delta = if cfg.deltaUpdateStrategy = "adaptative"
        then deltaUpdateFn normE cfg.c st.x st.delta k else st.delta) ∧
    (∀ n k st st', k + n ≤ 4 → loopBB normE gradFn cfg st k n = .ok st' →
      st'.delta = st.delta) ∧
    (cfg.deltaUpdateStrategy ≠ "adaptative" →
      ∀ n k st st', loopBB normE gradFn cfg st k n = .ok st' →
        st'.delta = st.delta) ∧
    (∀ st0, initBB normE normInf costFn gradFn x0 cfg btFuel = some st0 →
      st0.delta = cfg.deltaInput) := by
  refine ⟨?_, ?_, ?_, ?_, ?_, ?_⟩
  · intro xs d k hk
    rw [deltaUpdateFn, if_neg hk]
  · intro xs d
    rw [deltaUpdateFn, if_pos rfl]
  · intro st k st' h
    obtain ⟨_, _, _, _, _, _, _, hd, _, _⟩ := stepBB_ok_fields normE gradFn cfg st k st' h
    exact hd
  · exact loopBB_delta_pre4 normE gradFn cfg
  · intro hs n k st st' h
    exact loopBB_delta_not_adaptative normE gradFn cfg hs n k st st' h
  · intro st0 h
    unfold initBB at h
    split at h
    · exact absurd h (by simp)
    · injection h with h'
      rw [← h']

/-- C8: under a nonnegative tolerance, at every state of the main loop that
is about to execute a loop body (the guard `normGrad[-1] > tol` holds), the
divisor `‖g_k‖` of the stabilization term `delta / ‖g_k‖` is strictly
positive: the last recorded gradient norm equals `‖g_k‖` throughout the run,
so the division by a zero gradient norm is unreachable. -/
theorem stab_BB_stabilizer_divisor_pos (normE normInf : Vec → ℚ)
    (costFn : Vec → ℚ) (gradFn : Vec → Vec) (x0 : Vec) (cfg : Cfg)
    (btFuel j : ℕ) (st0 st : BBState)
    (htol : 0 ≤ cfg.tol)
    (hinit : initBB normE normInf costFn gradFn x0 cfg btFuel = some st0)
    (hloop : loopBB normE gradFn cfg st0 0 j = .ok st)
    (hguard : loopGuard cfg.tol st) :
    0 < normE st.gk := by
  have hinv := loopBB_ok_preserve normE gradFn cfg (BBInv normE x0)
    (fun s k s' hP hs => stepBB_inv normE gradFn cfg x0 s k s' hP hs)
    j 0 st0 st
    (initBB_inv normE normInf costFn gradFn x0 cfg btFuel st0 hinit) hloop
  obtain ⟨_, _, _, _, h5⟩ := hinv
  unfold loopGuard at hguard
  rw [h5] at hguard
  exact lt_of_le_of_lt htol hguard

/-- C9: `stab_BB` is deterministic: two runs given identical norm functions,
cost function, gradient function, initial point, configuration, backtracking
fuel, and step budget produce identical outcomes (best point and all three
histories); the algorithm uses no hidden randomness. -/
theorem stab_BB_deterministic (ne1 ne2 ni1 ni2 : Vec → ℚ)
    (cost1 cost2 : Vec → ℚ) (grad1 grad2 : Vec → Vec) (x01 x02 : Vec)
    (cfg1 cfg2 : Cfg) (f1 f2 s1 s2 : ℕ)
    (h1 : ne1 = ne2) (h2 : ni1 = ni2) (h3 : cost1 = cost2) (h4 : grad1 = grad2)
    (h5 : x01 = x02) (h6 : cfg1 = cfg2) (h7 : f1 = f2) (h8 : s1 = s2) :
    stab_BB ne1 ni1 cost1 grad1 x01 cfg1 f1 s1
      = stab_BB ne2 ni2 cost2 grad2 x02 cfg2 f2 s2 := by
  subst h1; subst h2; subst h3; subst h4; subst h5; subst h6; subst h7; subst h8
  rfl

/-- One loop body behaves identically under any two strategies that are both
different from the exact string `"adaptative"`; in particular any
unrecognized strategy behaves as `"constant"`. -/
theorem stepBB_strategy_constant (normE : Vec → ℚ) (gradFn : Vec → Vec)
    (cfg : Cfg) (st : BBState) (k : ℕ)
    (hs : cfg.deltaUpdateStrategy ≠ "adaptative") :
    stepBB normE gradFn cfg st k
      = stepBB normE gradFn { cfg with deltaUpdateStrategy := "constant" } st k := by
  have h2 : ({ cfg with deltaUpdateStrategy := "constant" } : Cfg).deltaUpdateStrategy
      ≠ "adaptative" := by simp
  simp only [stepBB, if_neg hs, if_neg h2]

/-- The whole loop behaves identically under any non-`"adaptative"` strategy
and under `"constant"`. -/
theorem loopBB_strategy_constant (normE : Vec → ℚ) (gradFn : Vec → Vec)
    (cfg : Cfg) (hs : cfg.deltaUpdateStrategy ≠ "adaptative") :
    ∀ (n k : ℕ) (st : BBState),
      loopBB normE gradFn cfg st k n
        = loopBB normE gradFn { cfg with deltaUpdateStrategy := "constant" } st k n := by
  intro n
  induction n with
  | zero => intro k st; rfl
  | succ n ih =>
      intro k st
      simp only [loopBB, ← stepBB_strategy_constant normE gradFn cfg st k hs]
      by_cases hg : loopGuard cfg.tol st
      · rw [if_pos hg, if_pos hg]
        cases stepBB normE gradFn cfg st k with
        | error e => rfl
        | ok st1 => exact ih (k + 1) st1
      · rw [if_neg hg, if_neg hg]
        exact ih (k + 1) st

/-- C10: for every `deltaUpdateStrategy` string other than the exact source
spelling `"adaptative"` (including the spec's spelling `"adaptive"` and
arbitrary unrecognized strings), `stab_BB` raises no configuration error and
the whole run is identical to the run with strategy `"constant"`; any error
the run can return comes from an invalid `bb`, never from the strategy; and
`delta` stays equal to its initial value for the entire run. -/
theorem stab_BB_strategy_fallback (normE normInf : Vec → ℚ)
    (costFn : Vec → ℚ) (gradFn : Vec → Vec) (x0 : Vec) (cfg : Cfg)
    (btFuel steps : ℕ)
    (hs : cfg.deltaUpdateStrategy ≠ "adaptative") :
    stab_BB normE normInf costFn gradFn x0 cfg btFuel steps
      = stab_BB normE normInf costFn gradFn x0
          { cfg with deltaUpdateStrategy := "constant" } btFuel steps ∧
    (∀ e gl cl, stab_BB normE normInf costFn gradFn x0 cfg btFuel steps
        = .err e gl cl → cfg.bb ≠ 1 ∧ cfg.bb ≠ 2) ∧
    (∀ n k st st', loopBB normE gradFn cfg st k n = .ok st' →
      st'.delta = st.delta) := by
  refine ⟨?_, ?_, ?_⟩
  · have hinit : initBB normE normInf costFn gradFn x0
        { cfg with deltaUpdateStrategy := "constant" } btFuel
        = initBB normE normInf costFn gradFn x0 cfg btFuel := rfl
    have hmax : ({ cfg with deltaUpdateStrategy := "constant" } : Cfg).maxIt
        = cfg.maxIt := rfl
    unfold stab_BB
    rw [hinit, hmax]
    simp only [← loopBB_strategy_constant normE gradFn cfg hs]
  · intro e gl cl h
    unfold stab_BB at h
    split at h
    · exact absurd h (by simp)
    · next st0 hinit =>
        split at h
        · next e' st'' hloop =>
            have := loopBB_error_elim normE gradFn cfg (fun _ => True)
              (fun _ _ _ _ _ => trivial) (min steps cfg.maxIt) 0 st0 st'' e'
              trivial hloop
            exact ⟨this.2.1, this.2.2.1⟩
        · exact absurd h (by simp)
  · intro n k st st' h
    exact loopBB_delta_not_adaptative normE gradFn cfg hs n k st st' h

/-! ### Witnesses: concrete instantiations of the hypotheses -/

/-- Witness for C1 on the quadratic `f(x) = x^2/2` from `x0 = [1]`. -/
theorem stab_BB_bestPoint_witness :
    stab_BB absHead linfQ (fun v => (v.headD 0) ^ 2 / 2) (fun v => v) [1]
      { bb := 1, deltaUpdateStrategy := "adaptative", deltaInput := 10,
        c := 1/5, maxIt := 3, tol := 0 } 5 10
      = .ok [0] [[1], [0]] [] [0] [[1], [1], [0]] [[0], [1]] ∧
    ([0] : Vec) = ([[1], [0]] : List Vec).getD (argminQ [0] + 1) [] ∧
    1 ≤ argminQ ([0] : List ℚ) + 1 ∧
    argminQ ([0] : List ℚ) + 1 < ([[1], [0]] : List Vec).length := by
  have h : stab_BB absHead linfQ (fun v => (v.headD 0) ^ 2 / 2) (fun v => v) [1]
      { bb := 1, deltaUpdateStrategy := "adaptative", deltaInput := 10,
        c := 1/5, maxIt := 3, tol := 0 } 5 10
      = .ok [0] [[1], [0]] [] [0] [[1], [1], [0]] [[0], [1]] := by
    with_unfolding_all decide
  have h2 := stab_BB_bestPoint absHead linfQ (fun v => (v.headD 0) ^ 2 / 2)
    (fun v => v) [1] _ 5 10 _ _ _ _ _ _ h
  exact ⟨h, h2.1, h2.2.1, h2.2.2.1⟩

/-- Witness for C2 on the same concrete run. -/
theorem stab_BB_history_lengths_witness :
    stab_BB absHead linfQ (fun v => (v.headD 0) ^ 2 / 2) (fun v => v) [1]
      { bb := 1, deltaUpdateStrategy := "adaptative", deltaInput := 10,
        c := 1/5, maxIt := 3, tol := 0 } 5 10
      = .ok [0] [[1], [0]] [] [0] [[1], [1], [0]] [[0], [1]] ∧
    ([0] : List ℚ).length + 1 = ([[1], [0]] : List Vec).length ∧
    ([] : List ℚ).length + 2 = ([[1], [0]] : List Vec).length := by
  have h : stab_BB absHead linfQ (fun v => (v.headD 0) ^ 2 / 2) (fun v => v) [1]
      { bb := 1, deltaUpdateStrategy := "adaptative", deltaInput := 10,
        c := 1/5, maxIt := 3, tol := 0 } 5 10
      = .ok [0] [[1], [0]] [] [0] [[1], [1], [0]] [[0], [1]] := by
    with_unfolding_all decide
  have h2 := stab_BB_history_lengths absHead linfQ (fun v => (v.headD 0) ^ 2 / 2)
    (fun v => v) [1] _ 5 10 _ _ _ _ _ _ h
  exact ⟨h, h2.1, h2.2.1⟩

/-- Witness for C3 (amended) at `bb = 3` on the quadratic from `x0 = [2]`:
with `tol = 0` the guard holds and the run errors after the logged
evaluations; with `tol = 5` the guard fails and the same invalid `bb`
returns a normal result from the seeded histories. -/
theorem stab_BB_invalid_bb_witness :
    (3 : ℤ) ≠ 1 ∧ (3 : ℤ) ≠ 2 ∧
    initBB absHead linfQ (fun v => (v.headD 0) ^ 2 / 2) (fun v => v) [2]
      { bb := 3, deltaUpdateStrategy := "adaptative", deltaInput := 10,
        c := 1/5, maxIt := 3, tol := 0 } 5
      = some ⟨[[2], [1]], [], [1], [2], [1], 10, [[2], [2], [1]], [[1], [2]]⟩ ∧
    loopGuard (0 : ℚ) ⟨[[2], [1]], [], [1], [2], [1], 10, [[2], [2], [1]], [[1], [2]]⟩ ∧
    1 ≤ min 10 3 ∧
    stab_BB absHead linfQ (fun v => (v.headD 0) ^ 2 / 2) (fun v => v) [2]
      { bb := 3, deltaUpdateStrategy := "adaptative", deltaInput := 10,
        c := 1/5, maxIt := 3, tol := 0 } 5 10
      = .err "parameter bb is not within range" [[2], [2], [1]] [[1], [2]] ∧
    initBB absHead linfQ (fun v => (v.headD 0) ^ 2 / 2) (fun v => v) [2]
      { bb := 3, deltaUpdateStrategy := "adaptative", deltaInput := 10,
        c := 1/5, maxIt := 3, tol := 5 } 5
      = some ⟨[[2], [1]], [], [1], [2], [1], 10, [[2], [2], [1]], [[1], [2]]⟩ ∧
    ¬ loopGuard (5 : ℚ) ⟨[[2], [1]], [], [1], [2], [1], 10, [[2], [2], [1]], [[1], [2]]⟩ ∧
    stab_BB absHead linfQ (fun v => (v.headD 0) ^ 2 / 2) (fun v => v) [2]
      { bb := 3, deltaUpdateStrategy := "adaptative", deltaInput := 10,
        c := 1/5, maxIt := 3, tol := 5 } 5 10
      = .ok [1] [[2], [1]] [] [1] [[2], [2], [1]] [[1], [2]] := by
  have hinit : initBB absHead linfQ (fun v => (v.headD 0) ^ 2 / 2) (fun v => v) [2]
      { bb := 3, deltaUpdateStrategy := "adaptative", deltaInput := 10,
        c := 1/5, maxIt := 3, tol := 0 } 5
      = some ⟨[[2], [1]], [], [1], [2], [1], 10, [[2], [2], [1]], [[1], [2]]⟩ := by
    with_unfolding_all decide
  have hinit5 : initBB absHead linfQ (fun v => (v.headD 0) ^ 2 / 2) (fun v => v) [2]
      { bb := 3, deltaUpdateStrategy := "adaptative", deltaInput := 10,
        c := 1/5, maxIt := 3, tol := 5 } 5
      = some ⟨[[2], [1]], [], [1], [2], [1], 10, [[2], [2], [1]], [[1], [2]]⟩ := by
    with_unfolding_all decide
  have hg5 : ¬ loopGuard (5 : ℚ)
      ⟨[[2], [1]], [], [1], [2], [1], 10, [[2], [2], [1]], [[1], [2]]⟩ := by
    with_unfolding_all decide
  refine ⟨by decide, by decide, hinit, by with_unfolding_all decide, by decide,
    ?_, hinit5, hg5, ?_⟩
  · exact (stab_BB_invalid_bb absHead linfQ (fun v => (v.headD 0) ^ 2 / 2)
      (fun v => v) [2] _ 5 10 _ (by decide) (by decide) hinit).1
      (by with_unfolding_all decide) (by decide)
  · exact (stab_BB_invalid_bb absHead linfQ (fun v => (v.headD 0) ^ 2 / 2)
      (fun v => v) [2] _ 5 10 _ (by decide) (by decide) hinit5).2.1 hg5

/-- Witness for C4 (amended) on the quadratic from `x0 = [2]`. -/
theorem backtracking_cost_le_witness :
    backtracking linfQ (fun v => (v.headD 0) ^ 2 / 2) [2] [2] 5
      = some ([1], [[1], [2]]) ∧
    (fun v : Vec => (v.headD 0) ^ 2 / 2) [1] ≤ (fun v : Vec => (v.headD 0) ^ 2 / 2) [2] := by
  have h : backtracking linfQ (fun v => (v.headD 0) ^ 2 / 2) [2] [2] 5
      = some ([1], [[1], [2]]) := by
    with_unfolding_all decide
  exact ⟨h, backtracking_cost_le linfQ (fun v => (v.headD 0) ^ 2 / 2) [2] [2] 5 [1] [[1], [2]] h⟩

/-- Witness for C5 (amended) on the same concrete run as C1. -/
theorem stab_BB_gradLog_witness :
    stab_BB absHead linfQ (fun v => (v.headD 0) ^ 2 / 2) (fun v => v) [1]
      { bb := 1, deltaUpdateStrategy := "adaptative", deltaInput := 10,
        c := 1/5, maxIt := 3, tol := 0 } 5 10
      = .ok [0] [[1], [0]] [] [0] [[1], [1], [0]] [[0], [1]] ∧
    ([[1], [1], [0]] : List Vec) = [1] :: [[1], [0]] ∧
    ([[1], [0]] : List Vec).getD 0 [] = [1] := by
  have h : stab_BB absHead linfQ (fun v => (v.headD 0) ^ 2 / 2) (fun v => v) [1]
      { bb := 1, deltaUpdateStrategy := "adaptative", deltaInput := 10,
        c := 1/5, maxIt := 3, tol := 0 } 5 10
      = .ok [0] [[1], [0]] [] [0] [[1], [1], [0]] [[0], [1]] := by
    with_unfolding_all decide
  have h2 := stab_BB_gradLog absHead linfQ (fun v => (v.headD 0) ^ 2 / 2)
    (fun v => v) [1] _ 5 10 _ _ _ _ _ _ h
  exact ⟨h, h2.1, h2.2⟩

/-- Witness for C6: the delta update at concrete iteration indices. -/
theorem stab_BB_delta_adaptation_witness :
    deltaUpdateFn absHead (1/5) [[9]] 7 3 = 7 ∧
    deltaUpdateFn absHead (1/5) [[0], [1], [2], [3], [4], [5]] 7 4
      = (1/5) * min (min (absHead (vsub (([[0], [1], [2], [3], [4], [5]] : List Vec).getD 4 [])
                                        (([[0], [1], [2], [3], [4], [5]] : List Vec).getD 3 [])))
                         (absHead (vsub (([[0], [1], [2], [3], [4], [5]] : List Vec).getD 3 [])
                                        (([[0], [1], [2], [3], [4], [5]] : List Vec).getD 2 []))))
                    (absHead (vsub (([[0], [1], [2], [3], [4], [5]] : List Vec).getD 2 [])
                                   (([[0], [1], [2], [3], [4], [5]] : List Vec).getD 1 []))) := by
  have h := stab_BB_delta_adaptation absHead linfQ (fun v => (v.headD 0) ^ 2 / 2)
    (fun v => v) [1]
    { bb := 1, deltaUpdateStrategy := "adaptative", deltaInput := 10,
      c := 1/5, maxIt := 3, tol := 0 } 5
  exact ⟨h.1 [[9]] 7 3 (by decide), h.2.1 [[0], [1], [2], [3], [4], [5]] 7⟩

set_option maxHeartbeats 1000000 in
/-- Witness for C8 at the seeded state of the run from `x0 = [2]`. -/
theorem stab_BB_stabilizer_divisor_pos_witness :
    (0 : ℚ) ≤ 0 ∧
    initBB absHead linfQ (fun v => (v.headD 0) ^ 2 / 2) (fun v => v) [2]
      { bb := 1, deltaUpdateStrategy := "adaptative", deltaInput := 10,
        c := 1/5, maxIt := 3, tol := 0 } 5
      = some ⟨[[2], [1]], [], [1], [2], [1], 10, [[2], [2], [1]], [[1], [2]]⟩ ∧
    loopBB absHead (fun v => v)
      { bb := 1, deltaUpdateStrategy := "adaptative", deltaInput := 10,
        c := 1/5, maxIt := 3, tol := 0 }
      ⟨[[2], [1]], [], [1], [2], [1], 10, [[2], [2], [1]], [[1], [2]]⟩ 0 0
      = .ok ⟨[[2], [1]], [], [1], [2], [1], 10, [[2], [2], [1]], [[1], [2]]⟩ ∧
    loopGuard (0 : ℚ) ⟨[[2], [1]], [], [1], [2], [1], 10, [[2], [2], [1]], [[1], [2]]⟩ ∧
    0 < absHead [1] := by
  have hinit : initBB absHead linfQ (fun v => (v.headD 0) ^ 2 / 2) (fun v => v) [2]
      { bb := 1, deltaUpdateStrategy := "adaptative", deltaInput := 10,
        c := 1/5, maxIt := 3, tol := 0 } 5
      = some ⟨[[2], [1]], [], [1], [2], [1], 10, [[2], [2], [1]], [[1], [2]]⟩ := by
    with_unfolding_all decide
  have hloop : loopBB absHead (fun v => v)
      { bb := 1, deltaUpdateStrategy := "adaptative", deltaInput := 10,
        c := 1/5, maxIt := 3, tol := 0 }
      ⟨[[2], [1]], [], [1], [2], [1], 10, [[2], [2], [1]], [[1], [2]]⟩ 0 0
      = .ok ⟨[[2], [1]], [], [1], [2], [1], 10, [[2], [2], [1]], [[1], [2]]⟩ := by
    with_unfolding_all rfl
  have hguard : loopGuard
      (({ bb := 1, deltaUpdateStrategy := "adaptative", deltaInput := 10,
          c := 1/5, maxIt := 3, tol := 0 } : Cfg)).tol
      ⟨[[2], [1]], [], [1], [2], [1], 10, [[2], [2], [1]], [[1], [2]]⟩ := by
    with_unfolding_all decide
  refine ⟨by decide, hinit, hloop, hguard, ?_⟩
  exact stab_BB_stabilizer_divisor_pos absHead linfQ (fun v => (v.headD 0) ^ 2 / 2)
    (fun v => v) [2] _ 5 0 _ _ (by decide) hinit hloop hguard

/-- Witness for C9: the same concrete run twice. -/
theorem stab_BB_deterministic_witness :
    stab_BB absHead linfQ (fun v => (v.headD 0) ^ 2 / 2) (fun v => v) [1]
      { bb := 1, deltaUpdateStrategy := "adaptative", deltaInput := 10,
        c := 1/5, maxIt := 3, tol := 0 } 5 10
    = stab_BB absHead linfQ (fun v => (v.headD 0) ^ 2 / 2) (fun v => v) [1]
      { bb := 1, deltaUpdateStrategy := "adaptative", deltaInput := 10,
        c := 1/5, maxIt := 3, tol := 0 } 5 10 := by
  exact stab_BB_deterministic absHead absHead linfQ linfQ
    (fun v => (v.headD 0) ^ 2 / 2) (fun v => (v.headD 0) ^ 2 / 2)
    (fun v => v) (fun v => v) [1] [1] _ _ 5 5 10 10
    rfl rfl rfl rfl rfl rfl rfl rfl

/-- Witness for C10 at the spec's spelling `"adaptive"`. -/
theorem stab_BB_strategy_fallback_witness :
    ("adaptive" : String) ≠ "adaptative" ∧
    stab_BB absHead linfQ (fun v => (v.headD 0) ^ 2 / 2) (fun v => v) [1]
      { bb := 1, deltaUpdateStrategy := "adaptive", deltaInput := 10,
        c := 1/5, maxIt := 3, tol := 0 } 5 10
    = stab_BB absHead linfQ (fun v => (v.headD 0) ^ 2 / 2) (fun v => v) [1]
      { bb := 1, deltaUpdateStrategy := "constant", deltaInput := 10,
        c := 1/5, maxIt := 3, tol := 0 } 5 10 := by
  refine ⟨by decide, ?_⟩
  exact (stab_BB_strategy_fallback absHead linfQ (fun v => (v.headD 0) ^ 2 / 2)
    (fun v => v) [1]
    { bb := 1, deltaUpdateStrategy := "adaptive", deltaInput := 10,
      c := 1/5, maxIt := 3, tol := 0 } 5 10 (by decide)).1
